import Mathlib

/-!
Verification of the Aura browser-extension core (DOM identifier scanner,
reputation batcher and cache, notes vault) against its specification.

The definitions below are shallow embeddings of the TypeScript sources:
  * src/lib/constants.ts   — score tier table (SCORE_TIERS, getTierForScore)
  * src/types/ethos.ts     — getScoreTier, escapeHtml, the matcher inside
                             processTextNode, the scoring queue
                             (queueForScoring / processScoreQueue /
                             updateScore), and the mutation reconciler
                             (processPendingNodes)
  * src/lib/ethos-client.ts — the TTL response cache (getFromCache / setCache)
  * src/lib/crypto.ts      — vault validator (createValidator / verifyPassword)

JavaScript numbers that hold Ethos scores are modelled as `Int`, timestamps
as `Nat` milliseconds, JS `Map`s as association lists in insertion order
(JS Map iteration order is insertion order), and JS strings as `String` or
`List Char` where character-level scanning is required.
-/

/-! ## Score tier table (src/lib/constants.ts) -/

structure ScoreTier where
  name : String
  min : Int
  max : Option Int
  color : String
  label : String
deriving DecidableEq, Repr

/-- `SCORE_TIERS` from constants.ts; `max = none` stands for `Infinity`. -/
def SCORE_TIERS : List ScoreTier :=
  [ ⟨"untrusted", 0, some 799, "#F2B8B5", "UNTRUSTED"⟩,
    ⟨"questionable", 800, some 999, "#FFB4AB", "QUESTIONABLE"⟩,
    ⟨"neutral", 1000, some 1199, "#938F99", "NEUTRAL"⟩,
    ⟨"known", 1200, some 1399, "#CCC2DC", "KNOWN"⟩,
    ⟨"established", 1400, some 1599, "#D0BCFF", "ESTABLISHED"⟩,
    ⟨"reputable", 1600, some 1799, "#B8C4FF", "REPUTABLE"⟩,
    ⟨"exemplary", 1800, some 1999, "#7DD3FC", "EXEMPLARY"⟩,
    ⟨"distinguished", 2000, some 2199, "#4ADE80", "DISTINGUISHED"⟩,
    ⟨"revered", 2200, some 2399, "#C084FC", "REVERED"⟩,
    ⟨"renowned", 2400, none, "#A78BFA", "RENOWNED"⟩ ]

/-- `score >= t.min && score <= t.max` for one tier (`max = none` is +∞). -/
def tierContains (t : ScoreTier) (score : Int) : Bool :=
  decide (t.min ≤ score) &&
    (match t.max with
     | none => true
     | some m => decide (score ≤ m))

/-- `getTierForScore` from constants.ts:
`null` gives `null`; otherwise the first tier whose range contains the
score, falling back to `SCORE_TIERS[0]`. -/
def getTierForScore (score : Option Int) : Option ScoreTier :=
  match score with
  | none => none
  | some s =>
    match SCORE_TIERS.find? (fun t => tierContains t s) with
    | some t => some t
    | none => SCORE_TIERS.head?

/-- The tier-name mapping used by `updateScore` in types/ethos.ts:
`tier ? tier.name : 'unscored'`. -/
def tierNameForScore (score : Option Int) : String :=
  match getTierForScore score with
  | some t => t.name
  | none => "unscored"

/-- `getScoreTier` from src/types/ethos.ts (the second, threshold-chain
implementation of the same table). -/
def getScoreTier (score : Option Int) : String :=
  match score with
  | none => "unscored"
  | some s =>
    if s ≥ 2400 then "renowned"
    else if s ≥ 2200 then "revered"
    else if s ≥ 2000 then "distinguished"
    else if s ≥ 1800 then "exemplary"
    else if s ≥ 1600 then "reputable"
    else if s ≥ 1400 then "established"
    else if s ≥ 1200 then "known"
    else if s ≥ 1000 then "neutral"
    else if s ≥ 800 then "questionable"
    else "untrusted"

/-! ## HTML escaping (escapeHtml in src/types/ethos.ts) -/

/-- Global single-character replacement, the semantics of
`String.prototype.replace` with a one-character global pattern. -/
def replaceChar (c : Char) (r : List Char) : List Char → List Char
  | [] => []
  | x :: xs => (if x = c then r else [x]) ++ replaceChar c r xs

/-- `escapeHtml` from types/ethos.ts: the five chained `.replace` calls,
`&` first, then `<`, `>`, `"`, `'`. -/
def escapeHtml (s : List Char) : List Char :=
  replaceChar (Char.ofNat 39) ['&', '#', '0', '3', '9', ';']
    (replaceChar (Char.ofNat 34) ['&', 'q', 'u', 'o', 't', ';']
      (replaceChar '>' ['&', 'g', 't', ';']
        (replaceChar '<' ['&', 'l', 't', ';']
          (replaceChar '&' ['&', 'a', 'm', 'p', ';'] s))))

/-! ## Vault validator (src/lib/crypto.ts)

`encrypt`/`decrypt` delegate to the Web Crypto API (AES-GCM under a
PBKDF2-derived key), which the spec scopes out as a black box with
authenticated-encryption failure semantics.  `AEBlob`, `encrypt` and
`decrypt` below are therefore an ideal authenticated-encryption
collaborator; `createValidator` and `verifyPassword` on top of them are
transcribed from crypto.ts. -/

/-- Modelled from the spec: an authenticated-encryption ciphertext blob
(the Web Crypto AES-GCM primitive is not part of the repository).
Decryption succeeds exactly under the encrypting password. -/
structure AEBlob where
  plaintext : String
  password : String
deriving DecidableEq, Repr

/-- Modelled from the spec: black-box `encrypt(plaintext, password)`. -/
def encrypt (plaintext password : String) : AEBlob :=
  ⟨plaintext, password⟩

/-- Modelled from the spec: black-box `decrypt(blob, password)` with
authenticated-encryption failure semantics — a wrong password fails, it
never reveals plaintext. -/
def decrypt (blob : AEBlob) (password : String) : Except Unit String :=
  if blob.password = password then .ok blob.plaintext else .error ()

def VALIDATOR_STRING : String := "AURA_VAULT_V1"

/-- `createValidator` from crypto.ts: encrypt the fixed validator string. -/
def createValidator (password : String) : AEBlob :=
  encrypt VALIDATOR_STRING password

/-- `verifyPassword` from crypto.ts: try to decrypt the validator; any
decryption failure is caught and returns `false`. -/
def verifyPassword (validator : AEBlob) (password : String) : Bool :=
  match decrypt validator password with
  | .ok decrypted => decrypted = VALIDATOR_STRING
  | .error _ => false

/-- JS `String.prototype.toLowerCase()` (ASCII case folding, matching
`Char.toLower`), written by structural recursion so concrete states
evaluate. -/
def toLowerCase (s : String) : String :=
  String.mk (s.data.map Char.toLower)

/-! ## JS `Map` as an insertion-ordered association list -/

/-- `Map.prototype.get`. -/
def mapGet [DecidableEq κ] (m : List (κ × δ)) (k : κ) : Option δ :=
  (m.find? (fun p => p.1 = k)).map (·.2)

/-- `Map.prototype.set`: update in place when the key is present (keeping
its position in iteration order), otherwise append. -/
def mapSet [DecidableEq κ] (m : List (κ × δ)) (k : κ) (v : δ) : List (κ × δ) :=
  if m.any (fun p => p.1 = k) then
    m.map (fun p => if p.1 = k then (k, v) else p)
  else
    m ++ [(k, v)]

/-- `Map.prototype.delete`. -/
def mapDelete [DecidableEq κ] (m : List (κ × δ)) (k : κ) : List (κ × δ) :=
  m.filter (fun p => decide (¬ p.1 = k))

/-! ## Reputation response cache (src/lib/ethos-client.ts) -/

structure CacheEntry (δ : Type) where
  data : δ
  expiresAt : Nat
deriving DecidableEq, Repr

/-- `getFromCache` from ethos-client.ts: absent once `now > expiresAt`,
deleting the stale entry as a side effect.  Returns the updated cache
together with the lookup result. -/
def getFromCache [DecidableEq κ] (cache : List (κ × CacheEntry δ)) (key : κ)
    (now : Nat) : List (κ × CacheEntry δ) × Option δ :=
  match mapGet cache key with
  | none => (cache, none)
  | some entry =>
    if now > entry.expiresAt then (mapDelete cache key, none)
    else (cache, some entry.data)

/-- The "if still too large, remove oldest" step of `setCache`: sort by
`expiresAt` ascending (stable, like `Array.prototype.sort` with the
numeric comparator) and delete the keys of the first `size - 500`
entries. -/
def evictOldest [DecidableEq κ] (purged : List (κ × CacheEntry δ)) :
    List (κ × CacheEntry δ) :=
  let sorted := purged.insertionSort (fun a b => a.2.expiresAt ≤ b.2.expiresAt)
  let toRemove := (sorted.take (purged.length - 500)).map (·.1)
  purged.filter (fun p => decide (p.1 ∉ toRemove))

/-- `setCache` from ethos-client.ts.  Cleanup runs only when the
pre-insert size exceeds 500: first delete every expired entry, then, if
still over 500, delete the `size - 500` entries with the smallest
`expiresAt`, and finally write the new entry. -/
def setCache [DecidableEq κ] (cache : List (κ × CacheEntry δ)) (key : κ)
    (data : δ) (ttl now : Nat) : List (κ × CacheEntry δ) :=
  let cache1 :=
    if cache.length > 500 then
      let purged := cache.filter (fun p => decide (¬ now > p.2.expiresAt))
      if purged.length > 500 then evictOldest purged
      else purged
    else cache
  mapSet cache1 key ⟨data, now + ttl⟩

/-! ## Scoring queue (queueForScoring / processScoreQueue slicing) -/

inductive IdKind where
  | eth
  | ens
  | base
deriving DecidableEq, Repr

structure QueueItem where
  identifier : String
  type : IdKind
deriving DecidableEq, Repr

/-- `queueForScoring` from types/ethos.ts: push unless an item with the
same lowercased identifier is already queued (the debounce-timer reset is
timing, not state, and is not modelled). -/
def queueForScoring (queue : List QueueItem) (identifier : String)
    (type : IdKind) : List QueueItem :=
  let id := toLowerCase identifier
  if queue.any (fun q => toLowerCase q.identifier = id) then queue
  else queue ++ [⟨identifier, type⟩]

/-- Enqueue a whole list of items in order. -/
def enqueueAll (queue : List QueueItem) (items : List QueueItem) : List QueueItem :=
  items.foldl (fun q it => queueForScoring q it.identifier it.type) queue

/-- The successive batches taken by repeated `processScoreQueue` runs:
each run splices the first 30 queued items off and, when the queue is
still non-empty afterwards, schedules a follow-up run. -/
def dispatchCycles : List QueueItem → List (List QueueItem)
  | [] => []
  | q :: qs => ((q :: qs).take 30) :: dispatchCycles ((q :: qs).drop 30)
termination_by l => l.length
decreasing_by
  simp only [List.length_drop, List.length_cons]
  omega

/-! ## Identifier matcher (match collection in processTextNode)

The three regex families of `PATTERNS` are embedded as explicit scanners
with JS `RegExp.prototype.exec` global-scan semantics: repeatedly find the
leftmost match at or after the current position and continue right after
it.  For `baseName` and `ensName` the middle class `[a-zA-Z0-9-]` cannot
contain `.`, so the backtracking greedy middle is forced to the maximal
run of middle characters; `\b` is the ASCII word boundary (`\w` is
`[A-Za-z0-9_]`). -/

/-- `[a-fA-F0-9]`. -/
def isHexDigit (c : Char) : Bool :=
  ('0' ≤ c && c ≤ '9') || ('a' ≤ c && c ≤ 'f') || ('A' ≤ c && c ≤ 'F')

/-- `[a-zA-Z0-9]`. -/
def isAsciiAlnum (c : Char) : Bool :=
  ('0' ≤ c && c ≤ '9') || ('a' ≤ c && c ≤ 'z') || ('A' ≤ c && c ≤ 'Z')

/-- `\w`, the class backing the `\b` assertion. -/
def isWordChar (c : Char) : Bool :=
  isAsciiAlnum c || c = '_'

/-- `[a-zA-Z0-9-]`, the middle class of the two name patterns. -/
def isMidChar (c : Char) : Bool :=
  isAsciiAlnum c || c = '-'

/-- Case-insensitive literal prefix test (the `i` flag on an ASCII
literal); the pattern is given lowercased. -/
def matchesCI : List Char → List Char → Bool
  | [], _ => true
  | _ :: _, [] => false
  | p :: ps, c :: cs => (c.toLower = p) && matchesCI ps cs

/-- `\b` before the current position: start of text or a non-word
previous character (every pattern then starts with a word character). -/
def boundaryBefore : Option Char → Bool
  | none => true
  | some p => !isWordChar p

/-- `\b` after the final (word) character of a name match: end of text or
a non-word next character. -/
def boundaryAfter : Option Char → Bool
  | none => true
  | some c => !isWordChar c

structure TextMatch where
  text : List Char
  index : Nat
  type : IdKind
deriving DecidableEq, Repr

/-- One attempt of `/0x[a-fA-F0-9]{40}/` at the current position. -/
def ethMatchAt (s : List Char) : Option (List Char) :=
  match s with
  | '0' :: 'x' :: rest =>
    let hexs := rest.take 40
    if hexs.length = 40 && hexs.all isHexDigit then
      some ('0' :: 'x' :: hexs)
    else none
  | _ => none

/-- Global scan of `PATTERNS.ethAddress`.  The fuel argument (the length
of the whole text at the top call) only bounds the recursion; every step
consumes at least one character, so the scan always ends on the empty
suffix first. -/
def ethScan : Nat → List Char → Nat → List TextMatch
  | 0, _, _ => []
  | _ + 1, [], _ => []
  | fuel + 1, c :: rest, i =>
    match ethMatchAt (c :: rest) with
    | some m => ⟨m, i, .eth⟩ :: ethScan fuel (rest.drop 41) (i + 42)
    | none => ethScan fuel rest (i + 1)

/-- One attempt of `/\b[a-zA-Z0-9][a-zA-Z0-9-]{0,}\.base\.eth\b/i` at the
current position (`prev` is the character before it). -/
def baseMatchAt (prev : Option Char) (s : List Char) : Option (List Char) :=
  match s with
  | [] => none
  | c :: rest =>
    if boundaryBefore prev && isAsciiAlnum c then
      let run := rest.takeWhile isMidChar
      let after := rest.dropWhile isMidChar
      if matchesCI (".base.eth".toList) after then
        if boundaryAfter (after.drop 9).head? then
          some (c :: (run ++ after.take 9))
        else none
      else none
    else none

/-- Global scan of `PATTERNS.baseName` (fuel as in `ethScan`). -/
def baseScan : Nat → Option Char → List Char → Nat → List TextMatch
  | 0, _, _, _ => []
  | _ + 1, _, [], _ => []
  | fuel + 1, prev, c :: rest, i =>
    match baseMatchAt prev (c :: rest) with
    | some m =>
      ⟨m, i, .base⟩ :: baseScan fuel m.getLast? (rest.drop (m.length - 1)) (i + m.length)
    | none => baseScan fuel (some c) rest (i + 1)

/-- One attempt of `/\b[a-zA-Z0-9][a-zA-Z0-9-]{2,}\.eth\b/i` at the
current position. -/
def ensMatchAt (prev : Option Char) (s : List Char) : Option (List Char) :=
  match s with
  | [] => none
  | c :: rest =>
    if boundaryBefore prev && isAsciiAlnum c then
      let run := rest.takeWhile isMidChar
      let after := rest.dropWhile isMidChar
      if decide (run.length ≥ 2) && matchesCI (".eth".toList) after then
        if boundaryAfter (after.drop 4).head? then
          some (c :: (run ++ after.take 4))
        else none
      else none
    else none

/-- Global scan of `PATTERNS.ensName` (fuel as in `ethScan`). -/
def ensScan : Nat → Option Char → List Char → Nat → List TextMatch
  | 0, _, _, _ => []
  | _ + 1, _, [], _ => []
  | fuel + 1, prev, c :: rest, i =>
    match ensMatchAt prev (c :: rest) with
    | some m =>
      ⟨m, i, .ens⟩ :: ensScan fuel m.getLast? (rest.drop (m.length - 1)) (i + m.length)
    | none => ensScan fuel (some c) rest (i + 1)

/-- The overlap test of processTextNode, with `m` an already-collected
match and the candidate given by its index and length. -/
def overlapsMatch (m : TextMatch) (candIdx candLen : Nat) : Bool :=
  (decide (candIdx ≥ m.index) && decide (candIdx < m.index + m.text.length)) ||
  (decide (m.index ≥ candIdx) && decide (m.index < candIdx + candLen))

/-- The per-candidate step of the ENS loop: skip names ending in
`.base.eth` (case-sensitive `endsWith`), discard candidates overlapping
any already-collected match, append the rest. -/
def addEnsCandidate (acc : List TextMatch) (m : TextMatch) : List TextMatch :=
  if ".base.eth".toList.isSuffixOf m.text then acc
  else if acc.any (fun a => overlapsMatch a m.index m.text.length) then acc
  else acc ++ [m]

/-- The match-collection phase of `processTextNode`: ETH addresses, then
Basenames, then ENS candidates filtered against what was collected. -/
def collectMatches (text : List Char) : List TextMatch :=
  (ensScan text.length none text 0).foldl addEnsCandidate
    (ethScan text.length text 0 ++ baseScan text.length none text 0)

/-! ## Per-identifier records (IdentifierInfo in types/ethos.ts) -/

structure IdentifierInfo where
  identifier : String
  type : IdKind
  score : Option Int
  tier : String
  resolvedAddress : Option String
  ethosName : Option String
  avatarUrl : Option String
  fetched : Bool
deriving DecidableEq, Repr

/-- The record created by processTextNode for a fresh identifier. -/
def initialInfo (identifier : String) (type : IdKind) : IdentifierInfo :=
  ⟨identifier, type, none, "unscored", none, none, none, false⟩

/-! ## DOM annotation engine (processTextNode splicing and scanDOM)

The document around one scanned text run is modelled two levels deep: a
root element whose children are text nodes and marker spans (the spans
`createTargetSpan` builds, each wrapping one inner text node).  Text
nodes carry numeric identities standing for DOM object identity, so the
`processedNodes` WeakSet becomes a set of ids.  `scanDOM`'s
`requestAnimationFrame` batching paces work across frames but processes
the same snapshot of text nodes in the same order, so it is not modelled
separately. -/

inductive DomChild where
  | textNode (id : Nat) (content : List Char)
  | markerEl (elemId : Nat) (classes : List String) (innerId : Nat)
      (innerText : List Char) (type : IdKind)
deriving DecidableEq, Repr

structure RootElem where
  tag : String
  classes : List String
  editable : Bool
  children : List DomChild
deriving DecidableEq, Repr

/-- Scanner-side mutable state of the content script. -/
structure ScanSt where
  processedNodes : List Nat
  nextId : Nat
  identifierData : List (String × IdentifierInfo)
  targetElements : List (String × List Nat)
  queue : List QueueItem
deriving DecidableEq, Repr

def blockedTags : List String :=
  ["script", "style", "textarea", "input", "noscript"]

/-- Walker tag filter of `scanDOM` (same tag set, walker order). -/
def walkerBlockedTags : List String :=
  ["script", "style", "noscript", "textarea", "input"]

/-- JS `!text.trim()`: only whitespace. -/
def isBlankText (content : List Char) : Bool :=
  content.all (fun c => c.isWhitespace)

/-- The snapshot of text nodes `scanDOM`'s TreeWalker collects before any
splicing: `(parentTag, parentClasses, parentEditable, nodeId, content)`.
Marker spans are `span` elements wrapping their own text node. -/
def walkTextNodes (root : RootElem) : List (String × List String × Bool × Nat × List Char) :=
  root.children.foldr
    (fun ch acc =>
      match ch with
      | .textNode id content =>
        if !isBlankText content && decide (root.tag ∉ walkerBlockedTags) then
          (root.tag, root.classes, root.editable, id, content) :: acc
        else acc
      | .markerEl _ classes innerId innerText _ =>
        if !isBlankText innerText && decide ("span" ∉ walkerBlockedTags) then
          ("span", classes, false, innerId, innerText) :: acc
        else acc)
    []

/-- One turn of the splicing loop of `processTextNode` over the matches
sorted by descending index: emit the text after the match (when
non-empty), the marker span, register the span, create the record if
absent, enqueue for scoring, and keep the text before the match. -/
def spliceStep (acc : ScanSt × List Char × List DomChild) (m : TextMatch) :
    ScanSt × List Char × List DomChild :=
  let (st, remaining, fragments) := acc
  let after := remaining.drop (m.index + m.text.length)
  let afterFrag : List DomChild :=
    if after.isEmpty then [] else [.textNode st.nextId after]
  let elemId := st.nextId + 1
  let innerId := st.nextId + 2
  let span : DomChild := .markerEl elemId ["aura-target", "unscored"] innerId m.text m.type
  let id := toLowerCase (String.mk m.text)
  let te := mapSet st.targetElements id ((mapGet st.targetElements id).getD [] ++ [elemId])
  let idd :=
    if (mapGet st.identifierData id).isSome then st.identifierData
    else mapSet st.identifierData id (initialInfo (String.mk m.text) m.type)
  let q := queueForScoring st.queue (String.mk m.text) m.type
  ({ st with nextId := st.nextId + 3, targetElements := te, identifierData := idd,
             queue := q },
   remaining.take m.index,
   span :: (afterFrag ++ fragments))

/-- `parent.replaceChild(fragment, node)`: swap the one text node with
the spliced fragments. -/
def replaceTextNode (children : List DomChild) (nodeId : Nat)
    (fragments : List DomChild) : List DomChild :=
  children.foldr
    (fun ch acc =>
      match ch with
      | .textNode id _ => if id = nodeId then fragments ++ acc else ch :: acc
      | _ => ch :: acc)
    []

/-- `processTextNode` from types/ethos.ts on one snapshot entry: the
guard chain (already processed, blank text, excluded parent tag, parent
already a marker, contentEditable), then match collection, then the
descending-index splice. -/
def processTextNodeModel (root : RootElem) (st : ScanSt) (ptag : String)
    (pclasses : List String) (peditable : Bool) (nodeId : Nat)
    (content : List Char) : RootElem × ScanSt :=
  if nodeId ∈ st.processedNodes then (root, st)
  else if isBlankText content then (root, st)
  else if ptag ∈ blockedTags then (root, st)
  else if "aura-target" ∈ pclasses then (root, st)
  else if peditable then (root, st)
  else
    let ms := collectMatches content
    if ms.isEmpty then (root, st)
    else
      let st0 := { st with processedNodes := nodeId :: st.processedNodes }
      let sorted := ms.insertionSort (fun a b => b.index ≤ a.index)
      let (st1, remaining, fragments) := sorted.foldl spliceStep (st0, content, [])
      let fragments' :=
        if remaining.isEmpty then fragments
        else .textNode st1.nextId remaining :: fragments
      let st2 :=
        if remaining.isEmpty then st1 else { st1 with nextId := st1.nextId + 1 }
      ({ root with children := replaceTextNode root.children nodeId fragments' }, st2)

/-- `scanDOM`: snapshot the text nodes, then process each in order. -/
def scanModel (root : RootElem) (st : ScanSt) : RootElem × ScanSt :=
  (walkTextNodes root).foldl
    (fun acc e => processTextNodeModel acc.1 acc.2 e.1 e.2.1 e.2.2.1 e.2.2.2.1 e.2.2.2.2)
    (root, st)

/-- Number of marker elements currently under the root. -/
def countMarkers (root : RootElem) : Nat :=
  root.children.countP (fun ch => match ch with | .markerEl .. => true | _ => false)

/-! ## Batcher write-back (updateScore and the body of processScoreQueue)

The network collaborators are oracles: `resolveName` returns an address
or `none` (it catches its own messaging errors), and the score / profile
fetches return `Except`, the `error` case standing for a thrown
exception, which the `try`/`catch` of `processScoreQueue` converts to
`updateScore(key, null)`.  The tooltip is modelled by what `showTooltip`
renders from the record. -/

structure TooltipView where
  identifier : String
  score : Option Int
  tier : String
deriving DecidableEq, Repr

structure UserResponse where
  displayName : Option String
  username : Option String
  avatarUrl : Option String
  score : Option Int
deriving DecidableEq, Repr

/-- The page-context state touched by the batcher write-back paths:
records, marker registry, each marker element's `className`, the hover
state and the rendered tooltip. -/
structure BatchState where
  identifierData : List (String × IdentifierInfo)
  targetElements : List (String × List Nat)
  elemClasses : List (Nat × String)
  currentHover : Option (Nat × String)
  tooltip : Option TooltipView
deriving DecidableEq, Repr

/-- `showTooltip(element, data)` as the view it renders. -/
def renderTooltip (data : IdentifierInfo) : TooltipView :=
  ⟨data.identifier, data.score, data.tier⟩

/-- Set `el.className` for every marker element registered under `id`. -/
def setMarkerClasses (classes : List (Nat × String)) (els : List Nat)
    (tierName : String) : List (Nat × String) :=
  els.foldl (fun cs e => mapSet cs e ("aura-target " ++ tierName)) classes

/-- `updateScore` from types/ethos.ts: write score/tier/fetched into the
record, restyle every registered marker, and re-render the tooltip when
the current hover targets this identifier and the record was fetched. -/
def updateScore (st : BatchState) (key : String) (score : Option Int) :
    BatchState :=
  let id := toLowerCase key
  let tierName := tierNameForScore score
  let els := (mapGet st.targetElements id).getD []
  match mapGet st.identifierData id with
  | some d =>
    let d' := { d with score := score, tier := tierName, fetched := true }
    let st' := { st with
      identifierData := mapSet st.identifierData id d',
      elemClasses := setMarkerClasses st.elemClasses els tierName }
    match st'.currentHover with
    | some (_, hoverId) =>
      if hoverId = id && d'.fetched then { st' with tooltip := some (renderTooltip d') }
      else st'
    | none => st'
  | none =>
    { st with elemClasses := setMarkerClasses st.elemClasses els tierName }

/-- JS truthiness of an optional string (`undefined` and `''` falsy). -/
def truthy (o : Option String) : Option String :=
  match o with
  | some s => if s = "" then none else some s
  | none => none

/-- `a || b || undefined` over optional strings. -/
def jsOr (a b : Option String) : Option String :=
  match truthy a with
  | some s => some s
  | none => truthy b

/-- `tier?.name || 'unscored'` in the fallback-score branch. -/
def fallbackTierName (score : Option Int) : String :=
  match getTierForScore score with
  | some t => if t.name = "" then "unscored" else t.name
  | none => "unscored"

/-- The profile block of `processScoreQueue` for one `userResult`: write
`ethosName`/`avatarUrl`, and when the score is still `null` and the
profile embeds one, take it as fallback score, restyling markers but not
re-rendering the tooltip. -/
def processUser (st : BatchState) (key : String) (user : UserResponse) :
    BatchState :=
  match mapGet st.identifierData key with
  | none => st
  | some d =>
    let d1 := { d with ethosName := jsOr user.displayName user.username,
                       avatarUrl := truthy user.avatarUrl }
    let st1 := { st with identifierData := mapSet st.identifierData key d1 }
    if d1.score.isNone && user.score.isSome then
      let tierName := fallbackTierName user.score
      let d2 := { d1 with score := user.score, tier := tierName }
      let els := (mapGet st1.targetElements key).getD []
      { st1 with
        identifierData := mapSet st1.identifierData key d2,
        elemClasses := setMarkerClasses st1.elemClasses els tierName }
    else st1

/-- The body of the `for (const item of batch)` loop of
`processScoreQueue`, with the score-fetch log as evidence of which
addresses were queried.  Name kinds resolve first; a failed resolution
ends the item with `updateScore(key, null)` and no score fetch; a thrown
score or profile fetch is caught and also ends in
`updateScore(key, null)`. -/
def processItem (resolver : String → Option String)
    (scorer : String → Except Unit (Option Int))
    (userApi : String → Except Unit (Option UserResponse))
    (st : BatchState) (item : QueueItem) : BatchState × List String :=
  let key := toLowerCase item.identifier
  let resolved : Option (BatchState × String) :=
    match item.type with
    | .eth => some (st, item.identifier)
    | _ =>
      match resolver item.identifier with
      | some addr =>
        let st1 :=
          match mapGet st.identifierData key with
          | some d =>
            let d' := { d with resolvedAddress := some addr }
            { st with identifierData := mapSet st.identifierData key d' }
          | none => st
        some (st1, addr)
      | none => none
  match resolved with
  | none => (updateScore st key none, [])
  | some (st1, addr) =>
    match scorer addr with
    | .error _ => (updateScore st1 key none, [addr])
    | .ok scoreOpt =>
      let st2 := updateScore st1 key scoreOpt
      match userApi addr with
      | .error _ => (updateScore st2 key none, [addr])
      | .ok none => (st2, [addr])
      | .ok (some user) => (processUser st2 key user, [addr])

/-- The whole batch loop, accumulating the score-fetch log. -/
def processBatch (resolver : String → Option String)
    (scorer : String → Except Unit (Option Int))
    (userApi : String → Except Unit (Option UserResponse))
    (st : BatchState) (batch : List QueueItem) : BatchState × List String :=
  batch.foldl
    (fun acc item =>
      let r := processItem resolver scorer userApi acc.1 item
      (r.1, acc.2 ++ r.2))
    (st, [])

/-! ## Mutation reconciler housekeeping (processPendingNodes)

The generic cleanup pass over the two maps: `attached` stands for
`document.body.contains`.  The trailing re-dispatch of queued nodes to
`processTextNode`/`scanDOM` is the scan model above. -/

/-- The "cleanup disconnected elements" loop: filter each marker list to
attached elements; a list left empty deletes both map entries. -/
def sweepRegistry [DecidableEq κ] (attached : ε → Bool)
    (te : List (κ × List ε)) : List (κ × List ε) :=
  te.filterMap (fun p =>
    let connected := p.2.filter attached
    if connected.isEmpty then none else some (p.1, connected))

/-- Keys whose marker lists lost every attached element. -/
def deadKeys [DecidableEq κ] (attached : ε → Bool)
    (te : List (κ × List ε)) : List κ :=
  (te.filter (fun p => (p.2.filter attached).isEmpty)).map (·.1)

/-- The housekeeping prefix of `processPendingNodes`: sweep the marker
registry and record map, then, if more than 500 identifiers remain
tracked, evict the earliest-inserted down to exactly 500, from both
maps. -/
def processPendingNodes [DecidableEq κ] (attached : ε → Bool)
    (te : List (κ × List ε)) (idd : List (κ × δ)) :
    List (κ × List ε) × List (κ × δ) :=
  let te1 := sweepRegistry attached te
  let idd1 := idd.filter (fun p => decide (p.1 ∉ deadKeys attached te))
  if te1.length > 500 then
    let toRemove := (te1.map (·.1)).take (te1.length - 500)
    (te1.filter (fun p => decide (p.1 ∉ toRemove)),
     idd1.filter (fun p => decide (p.1 ∉ toRemove)))
  else (te1, idd1)

/-! ## Concrete instances used by witnesses and counterexamples -/

/-- 45 queue items with pairwise distinct identifiers `"0"`..`"44"`. -/
def c3items : List QueueItem :=
  (List.range 45).map (fun i => ⟨(Nat.toDigits 10 i).asString, IdKind.eth⟩)

/-- C1's failing input: a 40-hex-digit address immediately followed by
`.base.eth`, so the address pattern and the Basename pattern both match
from offset 0. -/
def c1FailText : List Char :=
  "0x".toList ++ List.replicate 40 'a' ++ ".base.eth".toList

/-- C7's text run: an address directly followed by `abc.eth`; the `\b`
of the ENS pattern is blocked by the hex digit before `a`, so only the
address matches on the first scan. -/
def c7content : List Char :=
  "0x".toList ++ List.replicate 40 'a' ++ "abc.eth".toList

def c7root : RootElem := ⟨"div", [], false, [.textNode 0 c7content]⟩

def c7st : ScanSt := ⟨[], 100, [], [], []⟩

/-- C4's concrete cache: 500 distinct keys, every entry expired at 50. -/
def c4cache : List (Nat × CacheEntry Nat) :=
  (List.range 500).map (fun i => (i, ⟨0, 50⟩))

/-- A one-identifier page state: record for `"k"`, one marker element 7,
the marker hovered, no tooltip rendered yet. -/
def exampleBatchState : BatchState :=
  ⟨[("k", initialInfo ("k") IdKind.eth)], [("k", [7])],
   [(7, "aura-target unscored")], some (7, "k"), none⟩

/-- The C6 run: score endpoint answers "no score" (`ok none`), profile
endpoint embeds score 1450, so the fallback-score branch runs. -/
def c6result : BatchState × List String :=
  processItem (fun _ => none) (fun _ => .ok none)
    (fun _ => .ok (some ⟨some ("Bob"), none, none, some 1450⟩))
    exampleBatchState ⟨"k", IdKind.eth⟩

/-! ## Helper lemmas -/

theorem char_toNat_ofNat_valid (n : Nat) (h : n.isValidChar) :
    (Char.ofNat n).toNat = n := by
  simp [Char.ofNat, h, Char.ofNatAux, Char.toNat, UInt32.toNat, BitVec.toNat_ofNat]

theorem char_toLower_idem (c : Char) : c.toLower.toLower = c.toLower := by
  unfold Char.toLower
  by_cases h : 65 ≤ c.toNat ∧ c.toNat ≤ 90
  · rw [if_pos h]
    have hval : (c.toNat + 32).isValidChar := by
      left
      omega
    have hn : (Char.ofNat (c.toNat + 32)).toNat = c.toNat + 32 :=
      char_toNat_ofNat_valid _ hval
    rw [if_neg]
    rw [hn]
    omega
  · rw [if_neg h, if_neg h]

theorem toLowerCase_idem (s : String) :
    toLowerCase (toLowerCase s) = toLowerCase s := by
  simp only [toLowerCase, List.map_map]
  congr 1
  apply List.map_congr_left
  intro c _
  exact char_toLower_idem c

theorem find_tier_renowned (s : Int) (h : 2400 ≤ s) :
    SCORE_TIERS.find? (fun t => tierContains t s) =
      some ⟨"renowned", 2400, none, "#A78BFA", "RENOWNED"⟩ := by
  have h1 : ¬ (s ≤ (799 : Int)) := by omega
  have h2 : ¬ (s ≤ (999 : Int)) := by omega
  have h3 : ¬ (s ≤ (1199 : Int)) := by omega
  have h4 : ¬ (s ≤ (1399 : Int)) := by omega
  have h5 : ¬ (s ≤ (1599 : Int)) := by omega
  have h6 : ¬ (s ≤ (1799 : Int)) := by omega
  have h7 : ¬ (s ≤ (1999 : Int)) := by omega
  have h8 : ¬ (s ≤ (2199 : Int)) := by omega
  have h9 : ¬ (s ≤ (2399 : Int)) := by omega
  have h10 : (2400 : Int) ≤ s := h
  simp [SCORE_TIERS, List.find?, tierContains, h1, h2, h3, h4, h5, h6, h7, h8, h9, h10]

/-- C2: the tier classification is a pure total function of the score
matching the breakpoint table in both implementations: 1199 ↦ neutral,
1200 ↦ known, 2399 ↦ revered, 2400 ↦ renowned, every score ≥ 2400 ↦
renowned, and a null score maps to the distinct unscored state
(`getScoreTier null = "unscored"`; `getTierForScore null = null`, which
callers render as `"unscored"`). -/
theorem tier_table_boundaries :
    (getScoreTier (some 1199) = "neutral" ∧ getScoreTier (some 1200) = "known" ∧
     getScoreTier (some 2399) = "revered" ∧ getScoreTier (some 2400) = "renowned" ∧
     getScoreTier none = "unscored") ∧
    (tierNameForScore (some 1199) = "neutral" ∧ tierNameForScore (some 1200) = "known" ∧
     tierNameForScore (some 2399) = "revered" ∧ tierNameForScore (some 2400) = "renowned" ∧
     getTierForScore none = none ∧ tierNameForScore none = "unscored") ∧
    (∀ s : Int, 2400 ≤ s →
       getScoreTier (some s) = "renowned" ∧ tierNameForScore (some s) = "renowned") := by
  refine ⟨by decide, by decide, ?_⟩
  intro s h
  constructor
  · simp [getScoreTier, if_pos h]
  · simp [tierNameForScore, getTierForScore, find_tier_renowned s h]

/-- Witness for `tier_table_boundaries` at score 9999. -/
theorem tier_table_boundaries_witness :
    getScoreTier (some 9999) = "renowned" ∧ tierNameForScore (some 9999) = "renowned" :=
  tier_table_boundaries.2.2 9999 (by decide)

/-- C9: `verifyPassword(createValidator(p), p)` is true, and for any
other password `q` — empty string and `p` with trailing whitespace
included — it is false. -/
theorem vault_validator_roundtrip :
    (∀ p : String, verifyPassword (createValidator p) p = true) ∧
    (∀ p q : String, q ≠ p → verifyPassword (createValidator p) q = false) := by
  constructor
  · intro p
    simp [verifyPassword, createValidator, encrypt, decrypt]
  · intro p q h
    have hne : ¬ ((createValidator p).password = q) := by
      simp only [createValidator, encrypt]
      exact fun hh => h hh.symm
    simp [verifyPassword, decrypt, hne]

/-- Witness for `vault_validator_roundtrip`: correct password accepted;
empty string and the password with trailing whitespace rejected. -/
theorem vault_validator_roundtrip_witness :
    verifyPassword (createValidator ("hunter2")) ("hunter2") = true ∧
    verifyPassword (createValidator ("hunter2")) ("") = false ∧
    verifyPassword (createValidator ("hunter2")) ("hunter2 ") = false :=
  ⟨vault_validator_roundtrip.1 ("hunter2"),
   vault_validator_roundtrip.2 ("hunter2") ("") (by decide),
   vault_validator_roundtrip.2 ("hunter2") ("hunter2 ") (by decide)⟩

theorem mem_replaceChar {c t : Char} {r s : List Char}
    (h : c ∈ replaceChar t r s) : c ∈ r ∨ (c ∈ s ∧ c ≠ t) := by
  induction s with
  | nil => simp [replaceChar] at h
  | cons x xs ih =>
    simp only [replaceChar, List.mem_append] at h
    rcases h with h | h
    · by_cases hx : x = t
      · rw [if_pos hx] at h
        exact Or.inl h
      · rw [if_neg hx] at h
        simp only [List.mem_singleton] at h
        subst h
        exact Or.inr ⟨List.mem_cons_self _ _, hx⟩
    · rcases ih h with h | ⟨h1, h2⟩
      · exact Or.inl h
      · exact Or.inr ⟨List.mem_cons_of_mem x h1, h2⟩

theorem escapeHtml_mem {c : Char} {s : List Char} (h : c ∈ escapeHtml s) :
    c ≠ '<' ∧ c ≠ '>' ∧ c ≠ Char.ofNat 34 ∧ c ≠ Char.ofNat 39 := by
  unfold escapeHtml at h
  rcases mem_replaceChar h with h | ⟨h, hq1⟩
  · have hmem : c ∈ ['&', '#', '0', '3', '9', ';'] := h
    fin_cases hmem <;> decide
  rcases mem_replaceChar h with h | ⟨h, hq2⟩
  · have hmem : c ∈ ['&', 'q', 'u', 'o', 't', ';'] := h
    fin_cases hmem <;> decide
  rcases mem_replaceChar h with h | ⟨h, hq3⟩
  · have hmem : c ∈ ['&', 'g', 't', ';'] := h
    fin_cases hmem <;> decide
  rcases mem_replaceChar h with h | ⟨h, hq4⟩
  · have hmem : c ∈ ['&', 'l', 't', ';'] := h
    fin_cases hmem <;> decide
  rcases mem_replaceChar h with h | ⟨_, _⟩
  · have hmem : c ∈ ['&', 'a', 'm', 'p', ';'] := h
    fin_cases hmem <;> decide
  · exact ⟨hq4, hq3, hq2, hq1⟩

/-- C10: `escapeHtml` output never contains `<`, `>`, `"` or `'` (each is
replaced by its HTML entity, `&` first), so interpolating it into the
tooltip's innerHTML cannot introduce tags or break out of attribute
values. -/
theorem escapeHtml_no_dangerous_chars :
    (∀ s : List Char,
       (escapeHtml s).all
         (fun c => !(c == '<' || c == '>' || c == Char.ofNat 34 || c == Char.ofNat 39)) = true) ∧
    escapeHtml ("&<".toList) = "&amp;&lt;".toList ∧
    escapeHtml [Char.ofNat 39] = "&#039;".toList ∧
    escapeHtml [Char.ofNat 34] = "&quot;".toList ∧
    escapeHtml ("<p>\"x\"</p>".toList) =
      "&lt;p&gt;&quot;x&quot;&lt;/p&gt;".toList := by
  refine ⟨?_, by decide, by decide, by decide, by decide⟩
  intro s
  rw [List.all_eq_true]
  intro c hc
  obtain ⟨h1, h2, h3, h4⟩ := escapeHtml_mem hc
  simp [h1, h2, h3, h4]

theorem queueForScoring_dup {queue : List QueueItem} {identifier : String}
    (ty : IdKind) (q : QueueItem) (hq : q ∈ queue)
    (hid : toLowerCase q.identifier = toLowerCase identifier) :
    queueForScoring queue identifier ty = queue := by
  unfold queueForScoring
  rw [if_pos]
  rw [List.any_eq_true]
  exact ⟨q, hq, by simp [hid]⟩

theorem queueForScoring_fresh {queue : List QueueItem} {identifier : String}
    (ty : IdKind)
    (h : ∀ q ∈ queue, toLowerCase q.identifier ≠ toLowerCase identifier) :
    queueForScoring queue identifier ty = queue ++ [⟨identifier, ty⟩] := by
  unfold queueForScoring
  rw [if_neg]
  rw [List.any_eq_true]
  rintro ⟨q, hq, hid⟩
  exact h q hq (by simpa using hid)

theorem enqueueAll_fresh {items : List QueueItem} :
    ∀ queue : List QueueItem,
    items.Pairwise (fun a b => toLowerCase a.identifier ≠ toLowerCase b.identifier) →
    (∀ it ∈ items, ∀ q ∈ queue, toLowerCase q.identifier ≠ toLowerCase it.identifier) →
    enqueueAll queue items = queue ++ items := by
  induction items with
  | nil => intro queue _ _; simp [enqueueAll]
  | cons it its ih =>
    intro queue hpw hdisj
    rcases List.pairwise_cons.mp hpw with ⟨hit, hpw'⟩
    have hstep : queueForScoring queue it.identifier it.type = queue ++ [it] :=
      queueForScoring_fresh it.type (fun q hq => hdisj it (List.mem_cons_self _ _) q hq)
    have hrec : enqueueAll (queue ++ [it]) its = (queue ++ [it]) ++ its := by
      apply ih (queue ++ [it]) hpw'
      intro x hx q hq
      rcases List.mem_append.mp hq with hq | hq
      · exact hdisj x (List.mem_cons_of_mem _ hx) q hq
      · rcases List.mem_singleton.mp hq with rfl
        exact hit x hx
    calc enqueueAll queue (it :: its)
        = enqueueAll (queueForScoring queue it.identifier it.type) its := rfl
      _ = enqueueAll (queue ++ [it]) its := by rw [hstep]
      _ = (queue ++ [it]) ++ its := hrec
      _ = queue ++ (it :: its) := by simp

theorem dispatchCycles_of_length_45 {l : List QueueItem} (h : l.length = 45) :
    dispatchCycles l = [l.take 30, l.drop 30] := by
  match l, h with
  | q :: qs, h =>
    rw [dispatchCycles]
    have hdrop : ((q :: qs).drop 30).length = 15 := by
      simp only [List.length_drop, List.length_cons]
      simp only [List.length_cons] at h
      omega
    congr 1
    match hd : (q :: qs).drop 30 with
    | [] =>
      rw [hd] at hdrop
      simp at hdrop
    | q2 :: qs2 =>
      rw [dispatchCycles]
      have h15 : (q2 :: qs2).length = 15 := by rw [← hd]; exact hdrop
      have ht : (q2 :: qs2).take 30 = q2 :: qs2 :=
        List.take_of_length_le (by omega)
      have hd2 : (q2 :: qs2).drop 30 = [] :=
        List.drop_of_length_le (by omega)
      rw [ht, hd2, dispatchCycles]

/-- C3: 45 identifiers, pairwise distinct case-insensitively, enqueued in
one debounce window produce a queue of all 45 in order; dispatch then
takes exactly two cycles of 30 and 15 items, each slice in enqueue order.
An identifier already queued case-insensitively is not enqueued again. -/
theorem score_queue_two_cycles :
    (∀ (queue : List QueueItem) (identifier : String) (ty : IdKind),
       (∃ q ∈ queue, toLowerCase q.identifier = toLowerCase identifier) →
       queueForScoring queue identifier ty = queue) ∧
    (∀ items : List QueueItem,
       items.Pairwise (fun a b => toLowerCase a.identifier ≠ toLowerCase b.identifier) →
       items.length = 45 →
       enqueueAll [] items = items ∧
       dispatchCycles items = [items.take 30, items.drop 30] ∧
       (items.take 30).length = 30 ∧ (items.drop 30).length = 15) := by
  constructor
  · rintro queue identifier ty ⟨q, hq, hid⟩
    exact queueForScoring_dup ty q hq hid
  · intro items hpw hlen
    refine ⟨?_, dispatchCycles_of_length_45 hlen, ?_, ?_⟩
    · have := @enqueueAll_fresh items [] hpw (by intro _ _ q hq; cases hq)
      simpa using this
    · simp [List.length_take, hlen]
    · simp [List.length_drop, hlen]

/-- Witness for `score_queue_two_cycles`: the 45 concrete identifiers
`"0"`..`"44"` queue up in order and dispatch as a 30-batch then a
15-batch; a case-insensitive duplicate is not enqueued. -/
theorem score_queue_two_cycles_witness :
    (queueForScoring [⟨"Abc", IdKind.eth⟩] ("aBC") IdKind.ens =
       [⟨"Abc", IdKind.eth⟩]) ∧
    (enqueueAll [] c3items = c3items ∧
     dispatchCycles c3items = [c3items.take 30, c3items.drop 30] ∧
     (c3items.take 30).length = 30 ∧ (c3items.drop 30).length = 15) :=
  ⟨score_queue_two_cycles.1 [⟨"Abc", IdKind.eth⟩] ("aBC") IdKind.ens
     ⟨⟨"Abc", IdKind.eth⟩, by decide, by decide⟩,
   score_queue_two_cycles.2 c3items (by decide) (by decide)⟩

/-- C1 (refuted as stated — code bug): on the text
`"0x" ++ 40 × 'a' ++ ".base.eth"` the match-collection phase of
processTextNode returns an ETH-address match spanning `[0, 42)` AND a
Basename match spanning `[0, 51)`: two overlapping spans.  The ENS loop
checks overlap against earlier matches, but nothing checks the address
family against the Basename family, so the descending-index splice then
duplicates page text. -/
theorem matcher_returns_overlapping_spans :
    (collectMatches c1FailText).map (fun m => (m.index, m.text.length, m.type)) =
      [(0, 42, IdKind.eth), (0, 51, IdKind.base)] ∧
    ∃ m1 ∈ collectMatches c1FailText, ∃ m2 ∈ collectMatches c1FailText,
      m1 ≠ m2 ∧ m1.index < m2.index + m2.text.length ∧
      m2.index < m1.index + m1.text.length := by
  decide

/-- C7 counterexample: scanning a root holding the single text run
`"0x…a" ++ "abc.eth"` annotates everything (one marker); re-running the
scan on the result creates a second marker, because the residual text
node `"abc.eth"` — whose ENS match had been blocked by the word
character before it — now starts its own text run. -/
theorem rescan_creates_additional_marker :
    countMarkers (scanModel c7root c7st).1 = 1 ∧
    countMarkers (scanModel (scanModel c7root c7st).1 (scanModel c7root c7st).2).1 = 2 := by
  decide

/-- C7 (amended): a text node already in processedNodes, or with an
excluded parent tag, or whose parent carries the aura-target class, or
whose text yields no matches, is never spliced again; re-scanning can
still add markers only for text whose match set changed when splicing
moved a text-run boundary. -/
theorem processTextNode_never_resplices (root : RootElem) (st : ScanSt)
    (ptag : String) (pclasses : List String) (peditable : Bool)
    (nodeId : Nat) (content : List Char) :
    (nodeId ∈ st.processedNodes →
       processTextNodeModel root st ptag pclasses peditable nodeId content = (root, st)) ∧
    (ptag ∈ blockedTags →
       processTextNodeModel root st ptag pclasses peditable nodeId content = (root, st)) ∧
    ("aura-target" ∈ pclasses →
       processTextNodeModel root st ptag pclasses peditable nodeId content = (root, st)) ∧
    (collectMatches content = [] →
       processTextNodeModel root st ptag pclasses peditable nodeId content = (root, st)) := by
  refine ⟨?_, ?_, ?_, ?_⟩
  · intro h
    simp [processTextNodeModel, h]
  · intro h
    simp [processTextNodeModel, h]
  · intro h
    simp [processTextNodeModel, h]
  · intro h
    simp [processTextNodeModel, h]

/-- Witness for `processTextNode_never_resplices`: the already-processed
node 0 of the C7 root is left alone on a re-scan attempt. -/
theorem processTextNode_never_resplices_witness :
    processTextNodeModel c7root ⟨[0], 100, [], [], []⟩ ("div") [] false 0 c7content =
      (c7root, ⟨[0], 100, [], [], []⟩) :=
  (processTextNode_never_resplices c7root ⟨[0], 100, [], [], []⟩ ("div") [] false 0
      c7content).1 (by decide)

theorem mem_mapSet [DecidableEq κ] {m : List (κ × δ)} {k : κ} {v : δ} {p : κ × δ}
    (h : p ∈ mapSet m k v) : p ∈ m ∨ p = (k, v) := by
  unfold mapSet at h
  split at h
  · rcases List.mem_map.mp h with ⟨q, hq, hqe⟩
    by_cases hk : q.1 = k
    · rw [if_pos hk] at hqe
      exact Or.inr hqe.symm
    · rw [if_neg hk] at hqe
      exact Or.inl (hqe ▸ hq)
  · rcases List.mem_append.mp h with h | h
    · exact Or.inl h
    · exact Or.inr (List.mem_singleton.mp h)

theorem mapSet_length_le [DecidableEq κ] (m : List (κ × δ)) (k : κ) (v : δ) :
    (mapSet m k v).length ≤ m.length + 1 := by
  unfold mapSet
  split
  · simp
  · simp

theorem mapSet_length_fresh [DecidableEq κ] {m : List (κ × δ)} {k : κ} (v : δ)
    (h : k ∉ m.map (·.1)) : (mapSet m k v).length = m.length + 1 := by
  unfold mapSet
  rw [if_neg]
  · simp
  · rw [List.any_eq_true]
    rintro ⟨p, hp, he⟩
    simp only [decide_eq_true_eq] at he
    exact h (he ▸ List.mem_map_of_mem _ hp)

theorem keys_filter_sublist [DecidableEq κ] (f : κ × δ → Bool) (l : List (κ × δ)) :
    ((l.filter f).map (·.1)).Sublist (l.map (·.1)) :=
  (List.filter_sublist l).map _

theorem length_filter_ne_key [DecidableEq κ] {l : List (κ × δ)} {k : κ}
    (hnd : (l.map (·.1)).Nodup) (hk : k ∈ l.map (·.1)) :
    (l.filter (fun p => decide (¬ p.1 = k))).length = l.length - 1 := by
  induction l with
  | nil => simp at hk
  | cons a as ih =>
    simp only [List.map_cons, List.nodup_cons] at hnd
    rcases hnd with ⟨ha, hnd'⟩
    by_cases hak : a.1 = k
    · rw [List.filter_cons_of_neg (by simp [hak])]
      rw [List.filter_eq_self.mpr]
      · simp
      · intro p hp
        simp only [decide_eq_true_eq]
        intro hpk
        exact ha (hak ▸ hpk ▸ List.mem_map_of_mem _ hp)
    · have hk' : k ∈ as.map (·.1) := by
        rcases List.mem_cons.mp hk with h | h
        · exact absurd h.symm hak
        · exact h
      have hpos : 0 < as.length := by
        have := List.length_pos_of_mem hk'
        simpa using this
      rw [List.filter_cons_of_pos (by simp [hak])]
      simp only [List.length_cons, ih hnd' hk']
      omega

theorem length_filter_not_mem_keys [DecidableEq κ] {l : List (κ × δ)} :
    ∀ ks : List κ, (l.map (·.1)).Nodup → ks.Nodup →
    (∀ k ∈ ks, k ∈ l.map (·.1)) →
    (l.filter (fun p => decide (p.1 ∉ ks))).length = l.length - ks.length := by
  intro ks
  induction ks generalizing l with
  | nil =>
    intro _ _ _
    simp
  | cons k ks ih =>
    intro hnd hks hsub
    rcases List.nodup_cons.mp hks with ⟨hknotin, hks'⟩
    have hpred : ∀ p : κ × δ,
        decide (p.1 ∉ k :: ks) = (decide (p.1 ∉ ks) && decide (¬ p.1 = k)) := by
      intro p
      by_cases h1 : p.1 = k <;> by_cases h2 : p.1 ∈ ks <;>
        simp [h1, h2, List.mem_cons]
    have hsplit :
        l.filter (fun p => decide (p.1 ∉ k :: ks)) =
          (l.filter (fun p => decide (¬ p.1 = k))).filter
            (fun p => decide (p.1 ∉ ks)) := by
      rw [List.filter_filter]
      exact List.filter_congr (fun p _ => hpred p)
    set l1 := l.filter (fun p => decide (¬ p.1 = k)) with hl1
    have hl1nd : (l1.map (·.1)).Nodup :=
      (keys_filter_sublist _ l).nodup hnd
    have hl1sub : ∀ k' ∈ ks, k' ∈ l1.map (·.1) := by
      intro k' hk'
      rcases List.mem_map.mp (hsub k' (List.mem_cons_of_mem _ hk')) with ⟨p, hp, hpe⟩
      have hpne : ¬ p.1 = k := by
        rw [hpe]
        rintro rfl
        exact hknotin hk'
      refine List.mem_map.mpr ⟨p, ?_, hpe⟩
      rw [hl1]
      exact List.mem_filter.mpr ⟨hp, by simpa using hpne⟩
    have hl1len : l1.length = l.length - 1 :=
      length_filter_ne_key hnd (hsub k (List.mem_cons_self _ _))
    rw [hsplit, ih hl1nd hks' hl1sub, hl1len]
    simp only [List.length_cons]
    omega

theorem evictOldest_length [DecidableEq κ] {purged : List (κ × CacheEntry δ)}
    (hnd : (purged.map (·.1)).Nodup) (hover : 500 < purged.length) :
    (evictOldest purged).length = 500 := by
  unfold evictOldest
  have hperm : (purged.insertionSort
      (fun a b => a.2.expiresAt ≤ b.2.expiresAt)).Perm purged :=
    List.perm_insertionSort _ _
  have hkeysperm :
      ((purged.insertionSort (fun a b => a.2.expiresAt ≤ b.2.expiresAt)).map
        (·.1)).Perm (purged.map (·.1)) := hperm.map _
  have hsortnd := hkeysperm.nodup_iff.mpr hnd
  have hlen := hperm.length_eq
  set sorted := purged.insertionSort (fun a b => a.2.expiresAt ≤ b.2.expiresAt)
  set toRemove := (sorted.take (purged.length - 500)).map (·.1) with ht
  have htmap : toRemove = (sorted.map (·.1)).take (purged.length - 500) := by
    rw [ht, List.map_take]
  have htrnd : toRemove.Nodup := by
    rw [htmap]
    exact (List.take_sublist _ _).nodup hsortnd
  have htr_sub : ∀ k ∈ toRemove, k ∈ purged.map (·.1) := by
    intro k hk
    rw [htmap] at hk
    exact hkeysperm.mem_iff.mp ((List.take_sublist _ _).mem hk)
  have hlen_tr : toRemove.length = purged.length - 500 := by
    rw [htmap]
    simp only [List.length_take, List.length_map]
    omega
  rw [length_filter_not_mem_keys toRemove hnd htrnd htr_sub, hlen_tr]
  omega

theorem nodup_keys_entry_eq [DecidableEq κ] {l : List (κ × β)} {p q : κ × β}
    (hnd : (l.map (·.1)).Nodup) (hp : p ∈ l) (hq : q ∈ l) (hk : p.1 = q.1) :
    p = q := by
  induction l with
  | nil => cases hp
  | cons a as ih =>
    simp only [List.map_cons, List.nodup_cons] at hnd
    rcases hnd with ⟨ha, hnd'⟩
    rcases List.mem_cons.mp hp with rfl | hp'
    · rcases List.mem_cons.mp hq with rfl | hq'
      · rfl
      · exact absurd (hk ▸ List.mem_map_of_mem (·.1) hq') ha
    · rcases List.mem_cons.mp hq with rfl | hq'
      · exact absurd (hk ▸ List.mem_map_of_mem (·.1) hp') ha
      · exact ih hnd' hp' hq'

theorem mapSet_fresh_append [DecidableEq κ] {m : List (κ × δ)} {k : κ} (v : δ)
    (h : k ∉ m.map (·.1)) : mapSet m k v = m ++ [(k, v)] := by
  unfold mapSet
  rw [if_neg]
  rw [List.any_eq_true]
  rintro ⟨p, hp, he⟩
  simp only [decide_eq_true_eq] at he
  exact h (he ▸ List.mem_map_of_mem _ hp)

theorem evictOldest_evicts_oldest [DecidableEq κ] {purged : List (κ × CacheEntry δ)}
    (hnd : (purged.map (·.1)).Nodup) :
    ∀ p ∈ purged, p ∉ evictOldest purged →
      ∀ q ∈ evictOldest purged, p.2.expiresAt ≤ q.2.expiresAt := by
  intro p hp hnp q hq
  unfold evictOldest at hnp hq
  dsimp only at hnp hq
  have hperm : (purged.insertionSort
      (fun a b => a.2.expiresAt ≤ b.2.expiresAt)).Perm purged :=
    List.perm_insertionSort _ _
  have hpkey : p.1 ∈ ((purged.insertionSort
      (fun a b => a.2.expiresAt ≤ b.2.expiresAt)).take
        (purged.length - 500)).map (·.1) := by
    by_contra hcon
    exact hnp (List.mem_filter.mpr ⟨hp, by simpa using hcon⟩)
  have hptake : p ∈ (purged.insertionSort
      (fun a b => a.2.expiresAt ≤ b.2.expiresAt)).take (purged.length - 500) := by
    rcases List.mem_map.mp hpkey with ⟨a, ha, hak⟩
    have hap : a ∈ purged := hperm.mem_iff.mp ((List.take_sublist _ _).mem ha)
    have hae : a = p := nodup_keys_entry_eq hnd hap hp hak
    exact hae ▸ ha
  have hq' := List.mem_filter.mp hq
  have hqsorted : q ∈ purged.insertionSort
      (fun a b => a.2.expiresAt ≤ b.2.expiresAt) := hperm.mem_iff.mpr hq'.1
  have hqdrop : q ∈ (purged.insertionSort
      (fun a b => a.2.expiresAt ≤ b.2.expiresAt)).drop (purged.length - 500) := by
    have hsplitmem := hqsorted
    rw [← List.take_append_drop (purged.length - 500)
        (purged.insertionSort (fun a b => a.2.expiresAt ≤ b.2.expiresAt))]
      at hsplitmem
    rcases List.mem_append.mp hsplitmem with h | h
    · exact absurd (List.mem_map_of_mem (·.1) h) (by simpa using hq'.2)
    · exact h
  haveI : IsTotal (κ × CacheEntry δ) (fun a b => a.2.expiresAt ≤ b.2.expiresAt) :=
    ⟨fun a b => Nat.le_total _ _⟩
  haveI : IsTrans (κ × CacheEntry δ) (fun a b => a.2.expiresAt ≤ b.2.expiresAt) :=
    ⟨fun _ _ _ h1 h2 => le_trans h1 h2⟩
  have hsorted : List.Pairwise
      (fun a b : κ × CacheEntry δ => a.2.expiresAt ≤ b.2.expiresAt)
      (purged.insertionSort (fun a b => a.2.expiresAt ≤ b.2.expiresAt)) :=
    List.sorted_insertionSort _ _
  rw [← List.take_append_drop (purged.length - 500)
      (purged.insertionSort (fun a b => a.2.expiresAt ≤ b.2.expiresAt))]
    at hsorted
  exact (List.pairwise_append.mp hsorted).2.2 p hptake q hqdrop

/-- C4 (amended): `setCache` runs cleanup only when the pre-insert size
already exceeds 500 — it then deletes all expired entries, and if still
over 500 evicts in ascending `expiresAt` order down to exactly 500
(every evicted entry expires no later than every survivor of the
eviction step, and than every old entry surviving the whole call), then
writes the new entry, ending at no more than 501 entries (exactly 501
for a fresh key with nothing expired).  A call at pre-insert size ≤ 500
does no cleanup at all. -/
theorem setCache_capacity [DecidableEq κ] (cache : List (κ × CacheEntry δ))
    (key : κ) (data : δ) (ttl now : Nat)
    (hnd : (cache.map (·.1)).Nodup) :
    (cache.length ≤ 500 →
       setCache cache key data ttl now = mapSet cache key ⟨data, now + ttl⟩) ∧
    (500 < cache.length →
       ∀ p ∈ setCache cache key data ttl now, ¬ now > p.2.expiresAt) ∧
    (500 < cache.length → (setCache cache key data ttl now).length ≤ 501) ∧
    (500 < cache.length → (∀ p ∈ cache, ¬ now > p.2.expiresAt) →
       key ∉ cache.map (·.1) →
       (setCache cache key data ttl now).length = 501) ∧
    (∀ q ∈ evictOldest (cache.filter (fun p => decide (¬ now > p.2.expiresAt))),
       q ∈ cache.filter (fun p => decide (¬ now > p.2.expiresAt))) ∧
    (∀ p ∈ cache.filter (fun p => decide (¬ now > p.2.expiresAt)),
       p ∉ evictOldest (cache.filter (fun p => decide (¬ now > p.2.expiresAt))) →
       ∀ q ∈ evictOldest (cache.filter (fun p => decide (¬ now > p.2.expiresAt))),
         p.2.expiresAt ≤ q.2.expiresAt) ∧
    (500 < cache.length → (∀ p ∈ cache, ¬ now > p.2.expiresAt) →
       key ∉ cache.map (·.1) →
       ∀ p ∈ cache, p ∉ setCache cache key data ttl now →
         ∀ q ∈ setCache cache key data ttl now, q ∈ cache →
           p.2.expiresAt ≤ q.2.expiresAt) := by
  have hpurgend : ((cache.filter
      (fun p => decide (¬ now > p.2.expiresAt))).map (·.1)).Nodup :=
    (keys_filter_sublist _ cache).nodup hnd
  refine ⟨?_, ?_, ?_, ?_, ?_, ?_, ?_⟩
  · intro hle
    unfold setCache
    rw [if_neg (by omega)]
  · intro hgt p hp
    unfold setCache at hp
    rw [if_pos hgt] at hp
    dsimp only at hp
    rcases mem_mapSet hp with hp | rfl
    · split at hp
      · unfold evictOldest at hp
        have hp' := List.mem_filter.mp hp
        have := List.mem_filter.mp hp'.1
        simpa using this.2
      · simpa using (List.mem_filter.mp hp).2
    · simp
  · intro hgt
    unfold setCache
    rw [if_pos hgt]
    dsimp only
    split
    · have h1 := mapSet_length_le
        (evictOldest (cache.filter (fun p => decide (¬ now > p.2.expiresAt)))) key
        (⟨data, now + ttl⟩ : CacheEntry δ)
      have h2 := evictOldest_length hpurgend (by assumption)
      omega
    · have h1 := mapSet_length_le
        (cache.filter (fun p => decide (¬ now > p.2.expiresAt))) key
        (⟨data, now + ttl⟩ : CacheEntry δ)
      omega
  · intro hgt hunexp hfresh
    have hpurge : cache.filter (fun p => decide (¬ now > p.2.expiresAt)) = cache :=
      List.filter_eq_self.mpr (fun p hp => by simpa using hunexp p hp)
    unfold setCache
    rw [if_pos hgt, hpurge, if_pos hgt]
    have hfresh' : key ∉ (evictOldest cache).map (·.1) := by
      intro hk
      exact hfresh ((keys_filter_sublist _ _).mem hk)
    rw [mapSet_length_fresh _ hfresh']
    rw [evictOldest_length hnd hgt]
  · intro q hq
    unfold evictOldest at hq
    exact (List.mem_filter.mp hq).1
  · exact fun p hp hnp q hq => evictOldest_evicts_oldest hpurgend p hp hnp q hq
  · intro hgt hunexp hfresh p hp hnp q hq hqc
    have hpurge : cache.filter (fun p => decide (¬ now > p.2.expiresAt)) = cache :=
      List.filter_eq_self.mpr (fun p hp => by simpa using hunexp p hp)
    have hfresh' : key ∉ (evictOldest cache).map (·.1) := fun hk =>
      hfresh ((keys_filter_sublist _ _).mem hk)
    have hset : setCache cache key data ttl now =
        evictOldest cache ++ [(key, ⟨data, now + ttl⟩)] := by
      unfold setCache
      rw [if_pos hgt, hpurge, if_pos hgt]
      exact mapSet_fresh_append _ hfresh'
    rw [hset] at hnp hq
    have hpev : p ∉ evictOldest cache := fun hmem =>
      hnp (List.mem_append.mpr (Or.inl hmem))
    have hqev : q ∈ evictOldest cache := by
      rcases List.mem_append.mp hq with h | h
      · exact h
      · rcases List.mem_singleton.mp h with rfl
        exact absurd (List.mem_map_of_mem (·.1) hqc) hfresh
    exact evictOldest_evicts_oldest hnd p hp hpev q hqev

/-- Witness for `setCache_capacity` on a one-entry cache: below the
ceiling the call is a plain insert. -/
theorem setCache_capacity_witness :
    setCache [(0, ⟨5, 10⟩)] 1 7 4 3 = mapSet [((0 : Nat), (⟨5, 10⟩ : CacheEntry Nat))] 1 ⟨7, 7⟩ :=
  (setCache_capacity [(0, ⟨5, 10⟩)] 1 7 4 3 (by decide)).1 (by decide)

set_option maxRecDepth 100000 in
/-- C4 counterexample: inserting a fresh key into a cache of exactly 500
entries — every one of them already expired at `now = 100` — triggers no
cleanup at all: the claim's "delete all already-expired entries first"
does not happen and the cache ends at 501 > 500 entries, with the
expired entry `(0, ⟨0, 50⟩)` still present. -/
theorem setCache_overflow_counterexample :
    c4cache.length = 500 ∧
    (setCache c4cache 999 0 60 100).length = 501 ∧
    (0, (⟨0, 50⟩ : CacheEntry Nat)) ∈ setCache c4cache 999 0 60 100 ∧
    (100 : Nat) > 50 := by
  decide

theorem mapGet_mapSet_self [DecidableEq κ] (m : List (κ × δ)) (k : κ) (v : δ) :
    mapGet (mapSet m k v) k = some v := by
  unfold mapGet mapSet
  by_cases h : m.any (fun p => decide (p.1 = k))
  · rw [if_pos h]
    induction m with
    | nil => simp at h
    | cons a as ih =>
      by_cases hak : a.1 = k
      · simp [List.find?, hak]
      · have h' : as.any (fun p => decide (p.1 = k)) := by
          rcases List.any_eq_true.mp h with ⟨p, hp, hpk⟩
          rcases List.mem_cons.mp hp with rfl | hp'
          · simp [hak] at hpk
          · exact List.any_eq_true.mpr ⟨p, hp', hpk⟩
        simpa [List.find?, hak] using ih h'
  · rw [if_neg h]
    have hnone : m.find? (fun p => decide (p.1 = k)) = none := by
      rw [List.find?_eq_none]
      intro p hp
      simp only [decide_eq_true_eq]
      intro hpk
      exact h (List.any_eq_true.mpr ⟨p, hp, by simp [hpk]⟩)
    induction m with
    | nil => simp [List.find?]
    | cons a as ih =>
      have hak : ¬ (a.1 = k) := by
        intro hk
        simp [List.find?, hk] at hnone
      have hnone' : as.find? (fun p => decide (p.1 = k)) = none := by
        simpa [List.find?, hak] using hnone
      have h' : ¬ as.any (fun p => decide (p.1 = k)) := by
        rw [List.any_eq_true]
        rintro ⟨p, hp, hpk⟩
        simp only [decide_eq_true_eq] at hpk
        rw [List.find?_eq_none] at hnone'
        exact absurd (by simp [hpk]) (hnone' p hp)
      simpa [List.find?, hak] using ih h' hnone'

theorem find?_map_setkey_ne [DecidableEq κ] {k k' : κ} (v : δ)
    (h : ¬ (k = k')) :
    ∀ m : List (κ × δ),
      List.find? (fun p => decide (p.1 = k'))
        (m.map (fun p => if p.1 = k then (k, v) else p)) =
      List.find? (fun p => decide (p.1 = k')) m := by
  intro m
  induction m with
  | nil => rfl
  | cons a as ih =>
    by_cases hak : a.1 = k
    · have hhead : ¬ (a.1 = k') := hak ▸ h
      simp only [List.map_cons, if_pos hak]
      simp [List.find?_cons, h, hhead, ih]
    · simp only [List.map_cons, if_neg hak]
      by_cases hk' : a.1 = k'
      · simp [List.find?_cons, hk']
      · simp [List.find?_cons, hk', ih]

theorem mapGet_mapSet_ne [DecidableEq κ] (m : List (κ × δ)) {k k' : κ} (v : δ)
    (h : ¬ k' = k) : mapGet (mapSet m k v) k' = mapGet m k' := by
  have hkk' : ¬ (k = k') := fun hh => h hh.symm
  unfold mapGet mapSet
  split
  · congr 1
    exact find?_map_setkey_ne v hkk' m
  · congr 1
    rw [List.find?_append]
    have hone : List.find? (fun p => decide (p.1 = k')) [(k, v)] = none := by
      simp [List.find?, hkk']
    rw [hone]
    simp

theorem setMarkerClasses_preserve (classes : List (Nat × String))
    (els : List Nat) (tier : String) (e : Nat)
    (h : mapGet classes e = some ("aura-target " ++ tier)) :
    mapGet (setMarkerClasses classes els tier) e = some ("aura-target " ++ tier) := by
  induction els generalizing classes with
  | nil => exact h
  | cons a as ih =>
    unfold setMarkerClasses at ih ⊢
    simp only [List.foldl_cons]
    apply ih
    by_cases hae : e = a
    · subst hae
      exact mapGet_mapSet_self classes e _
    · rw [mapGet_mapSet_ne classes _ hae]
      exact h

theorem setMarkerClasses_get (classes : List (Nat × String)) (els : List Nat)
    (tier : String) :
    ∀ e ∈ els, mapGet (setMarkerClasses classes els tier) e =
      some ("aura-target " ++ tier) := by
  induction els generalizing classes with
  | nil => intro e he; cases he
  | cons a as ih =>
    intro e he
    unfold setMarkerClasses
    simp only [List.foldl_cons]
    rcases List.mem_cons.mp he with rfl | he'
    · exact setMarkerClasses_preserve _ as tier e (mapGet_mapSet_self classes e _)
    · exact ih _ e he'

theorem updateScore_identifierData (st : BatchState) (key : String)
    (score : Option Int) :
    (updateScore st key score).identifierData =
      match mapGet st.identifierData (toLowerCase key) with
      | some d => mapSet st.identifierData (toLowerCase key)
          { d with score := score, tier := tierNameForScore score, fetched := true }
      | none => st.identifierData := by
  unfold updateScore
  rcases h : mapGet st.identifierData (toLowerCase key) with _ | d
  · simp [h]
  · simp only [h]
    rcases hh : st.currentHover with _ | ⟨el, hid⟩
    · simp
    · dsimp only
      split <;> rfl

theorem updateScore_elemClasses (st : BatchState) (key : String)
    (score : Option Int) :
    (updateScore st key score).elemClasses =
      setMarkerClasses st.elemClasses
        ((mapGet st.targetElements (toLowerCase key)).getD [])
        (tierNameForScore score) := by
  unfold updateScore
  rcases h : mapGet st.identifierData (toLowerCase key) with _ | d
  · simp [h]
  · simp only [h]
    rcases hh : st.currentHover with _ | ⟨el, hid⟩
    · simp
    · dsimp only
      split <;> rfl

theorem updateScore_tooltip_hover (st : BatchState) (key : String)
    (score : Option Int) (d : IdentifierInfo) (el : Nat)
    (hd : mapGet st.identifierData (toLowerCase key) = some d)
    (hh : st.currentHover = some (el, toLowerCase key)) :
    (updateScore st key score).tooltip =
      some ⟨d.identifier, score, tierNameForScore score⟩ := by
  unfold updateScore
  simp only [hd, hh]
  simp [renderTooltip]

theorem processBatch_shift (resolver : String → Option String)
    (scorer : String → Except Unit (Option Int))
    (userApi : String → Except Unit (Option UserResponse)) :
    ∀ (b : List QueueItem) (acc : BatchState × List String),
      b.foldl (fun acc item =>
          let r := processItem resolver scorer userApi acc.1 item
          (r.1, acc.2 ++ r.2)) acc =
      ((processBatch resolver scorer userApi acc.1 b).1,
       acc.2 ++ (processBatch resolver scorer userApi acc.1 b).2) := by
  intro b
  induction b with
  | nil =>
    intro acc
    simp [processBatch]
  | cons it b ih =>
    intro acc
    rw [List.foldl_cons, ih]
    conv_rhs => rw [processBatch, List.foldl_cons]
    rw [ih]
    simp

/-- C5: per-item error handling of `processScoreQueue`.  A name item the
resolver cannot resolve is marked `fetched = true`, `score = none`,
`tier = "unscored"` with no score fetch attempted; an item whose score
fetch throws gets the same terminal marking (its fetch is logged); and a
batch splits into independently processed prefix and suffix, so one
item's failure never prevents the rest (the model's `processItem` is
total — every collaborator failure is converted to state, none
propagates). -/
theorem batcher_error_isolation :
    (∀ (resolver : String → Option String) scorer userApi (st : BatchState)
       (item : QueueItem) (d : IdentifierInfo),
       item.type = IdKind.ens ∨ item.type = IdKind.base →
       resolver item.identifier = none →
       mapGet st.identifierData (toLowerCase item.identifier) = some d →
       processItem resolver scorer userApi st item =
         (updateScore st (toLowerCase item.identifier) none, []) ∧
       mapGet (processItem resolver scorer userApi st item).1.identifierData
           (toLowerCase item.identifier) =
         some { d with score := none, tier := "unscored", fetched := true }) ∧
    (∀ resolver (scorer : String → Except Unit (Option Int)) userApi
       (st : BatchState) (item : QueueItem) (d : IdentifierInfo),
       item.type = IdKind.eth →
       scorer item.identifier = .error () →
       mapGet st.identifierData (toLowerCase item.identifier) = some d →
       (processItem resolver scorer userApi st item).2 = [item.identifier] ∧
       mapGet (processItem resolver scorer userApi st item).1.identifierData
           (toLowerCase item.identifier) =
         some { d with score := none, tier := "unscored", fetched := true }) ∧
    (∀ (resolver : String → Option String)
       (scorer : String → Except Unit (Option Int)) userApi (st : BatchState)
       (item : QueueItem) (d : IdentifierInfo) (addr : String),
       item.type = IdKind.ens ∨ item.type = IdKind.base →
       resolver item.identifier = some addr →
       scorer addr = .error () →
       mapGet st.identifierData (toLowerCase item.identifier) = some d →
       (processItem resolver scorer userApi st item).2 = [addr] ∧
       mapGet (processItem resolver scorer userApi st item).1.identifierData
           (toLowerCase item.identifier) =
         some { d with resolvedAddress := some addr, score := none,
                       tier := "unscored", fetched := true }) ∧
    (∀ resolver scorer userApi (st : BatchState) (b1 b2 : List QueueItem),
       processBatch resolver scorer userApi st (b1 ++ b2) =
         ((processBatch resolver scorer userApi
             (processBatch resolver scorer userApi st b1).1 b2).1,
          (processBatch resolver scorer userApi st b1).2 ++
            (processBatch resolver scorer userApi
              (processBatch resolver scorer userApi st b1).1 b2).2)) := by
  refine ⟨?_, ?_, ?_, ?_⟩
  · rintro resolver scorer userApi st ⟨idf, ty⟩ d hkind hres hd
    have hpi : processItem resolver scorer userApi st ⟨idf, ty⟩ =
        (updateScore st (toLowerCase idf) none, []) := by
      rcases hkind with rfl | rfl <;> simp [processItem, hres]
    refine ⟨hpi, ?_⟩
    rw [hpi]
    simp only
    rw [updateScore_identifierData, toLowerCase_idem, hd]
    rw [mapGet_mapSet_self]
    rfl
  · rintro resolver scorer userApi st ⟨idf, ty⟩ d hkind hsc hd
    simp only at hkind
    subst hkind
    have hpi : processItem resolver scorer userApi st ⟨idf, IdKind.eth⟩ =
        (updateScore st (toLowerCase idf) none, [idf]) := by
      simp [processItem, hsc]
    refine ⟨by rw [hpi], ?_⟩
    rw [hpi]
    simp only
    rw [updateScore_identifierData, toLowerCase_idem, hd]
    rw [mapGet_mapSet_self]
    rfl
  · rintro resolver scorer userApi st ⟨idf, ty⟩ d addr hkind hres hsc hd
    set d1 : IdentifierInfo := { d with resolvedAddress := some addr } with hd1
    set st1 : BatchState :=
      { st with identifierData := mapSet st.identifierData (toLowerCase idf) d1 }
      with hst1
    have hpi : processItem resolver scorer userApi st ⟨idf, ty⟩ =
        (updateScore st1 (toLowerCase idf) none, [addr]) := by
      rcases hkind with rfl | rfl <;>
        simp [processItem, hres, hd, hsc, hst1, hd1]
    refine ⟨by rw [hpi], ?_⟩
    rw [hpi]
    simp only
    rw [updateScore_identifierData, toLowerCase_idem]
    rw [hst1]
    simp only [mapGet_mapSet_self]
    rfl
  · intro resolver scorer userApi st b1 b2
    have h1 : processBatch resolver scorer userApi st (b1 ++ b2) =
        (b1 ++ b2).foldl (fun acc item =>
          let r := processItem resolver scorer userApi acc.1 item
          (r.1, acc.2 ++ r.2)) (st, []) := rfl
    rw [h1, List.foldl_append]
    have h2 : (b1.foldl (fun acc item =>
          let r := processItem resolver scorer userApi acc.1 item
          (r.1, acc.2 ++ r.2)) (st, [])) = processBatch resolver scorer userApi st b1 := rfl
    rw [h2, ← @Prod.mk.eta _ _ (processBatch resolver scorer userApi st b1)]
    rw [processBatch_shift]

/-- Witness for `batcher_error_isolation`: on the one-identifier page
state, an unresolvable ENS item ends fetched/unscored with no score
fetch; a thrown ETH score fetch ends likewise with the fetch logged. -/
theorem batcher_error_isolation_witness :
    (processItem (fun _ => none) (fun _ => .error ()) (fun _ => .error ())
        exampleBatchState ⟨"k", IdKind.ens⟩ =
      (updateScore exampleBatchState (toLowerCase ("k")) none, []) ∧
     mapGet (processItem (fun _ => none) (fun _ => .error ()) (fun _ => .error ())
          exampleBatchState ⟨"k", IdKind.ens⟩).1.identifierData
         (toLowerCase ("k")) =
       some { initialInfo ("k") IdKind.eth with
              score := none, tier := "unscored", fetched := true }) ∧
    (processItem (fun _ => none) (fun _ => .error ()) (fun _ => .error ())
        exampleBatchState ⟨"k", IdKind.eth⟩).2 = ["k"] :=
  ⟨batcher_error_isolation.1 (fun _ => none) (fun _ => .error ())
     (fun _ => .error ()) exampleBatchState ⟨"k", IdKind.ens⟩
     (initialInfo ("k") IdKind.eth) (Or.inl rfl) rfl (by decide),
   (batcher_error_isolation.2.1 (fun _ => none) (fun _ => .error ())
     (fun _ => .error ()) exampleBatchState ⟨"k", IdKind.eth⟩
     (initialInfo ("k") IdKind.eth) rfl rfl (by decide)).1⟩

/-- C6 (amended): a score write through `updateScore` restyles every
registered marker element and re-renders the tooltip whenever the
current hover targets the identifier — in particular a marker hovered
while `fetched = false` has its tooltip replaced in place by the
score-1450 / tier-"established" rendering, without re-hovering.  The
fallback path (`processUser`, profile-embedded score upgrading an absent
score) restyles markers but never touches the tooltip, and profile-field
writes alone trigger no re-render. -/
theorem updateScore_restyles_and_rerenders :
    (∀ (st : BatchState) (key : String) (score : Option Int) (d : IdentifierInfo),
       mapGet st.identifierData (toLowerCase key) = some d →
       (∀ e ∈ (mapGet st.targetElements (toLowerCase key)).getD [],
          mapGet (updateScore st key score).elemClasses e =
            some ("aura-target " ++ tierNameForScore score)) ∧
       (∀ el : Nat, st.currentHover = some (el, toLowerCase key) →
          (updateScore st key score).tooltip =
            some ⟨d.identifier, score, tierNameForScore score⟩)) ∧
    (∀ (st : BatchState) (key : String) (el : Nat) (d : IdentifierInfo),
       mapGet st.identifierData (toLowerCase key) = some d →
       d.fetched = false →
       st.currentHover = some (el, toLowerCase key) →
       (updateScore st key (some 1450)).tooltip =
         some ⟨d.identifier, some 1450, "established"⟩) ∧
    (∀ (st : BatchState) (key : String) (user : UserResponse),
       (processUser st key user).tooltip = st.tooltip) := by
  refine ⟨?_, ?_, ?_⟩
  · intro st key score d hd
    constructor
    · intro e he
      rw [updateScore_elemClasses]
      exact setMarkerClasses_get _ _ _ e he
    · intro el hh
      exact updateScore_tooltip_hover st key score d el hd hh
  · intro st key el d hd _ hh
    have h := updateScore_tooltip_hover st key (some 1450) d el hd hh
    rw [h]
    have : tierNameForScore (some 1450) = "established" := by decide
    rw [this]
  · intro st key user
    unfold processUser
    rcases h : mapGet st.identifierData key with _ | d
    · rfl
    · dsimp only
      split <;> rfl

/-- Witness for `updateScore_restyles_and_rerenders` on the
one-identifier page state: the hovered loading marker's tooltip is
replaced by the 1450/"established" rendering. -/
theorem updateScore_restyles_and_rerenders_witness :
    (updateScore exampleBatchState ("k") (some 1450)).tooltip =
      some ⟨(initialInfo ("k") IdKind.eth).identifier, some 1450, "established"⟩ :=
  updateScore_restyles_and_rerenders.2.1 exampleBatchState ("k") 7
    (initialInfo ("k") IdKind.eth) (by decide) (by decide) (by decide)

set_option maxRecDepth 10000 in
/-- C6 counterexample: with the marker for `"k"` hovered, the score
endpoint answers "no score" (tooltip re-rendered as unscored), then the
profile endpoint embeds score 1450 — the fallback path writes score
1450 / tier "established" into the record and the marker class, but the
still-open tooltip keeps showing the stale unscored rendering instead of
being re-rendered. -/
theorem fallback_score_leaves_stale_tooltip :
    (mapGet c6result.1.identifierData ("k")).map
        (fun d => (d.score, d.tier, d.fetched)) =
      some (some 1450, "established", true) ∧
    mapGet c6result.1.elemClasses 7 = some ("aura-target established") ∧
    c6result.1.currentHover = some (7, "k") ∧
    c6result.1.tooltip = some ⟨"k", none, "unscored"⟩ ∧
    (⟨"k", none, "unscored"⟩ : TooltipView) ≠ ⟨"k", some 1450, "established"⟩ := by
  decide

theorem keys_sweepRegistry_sublist [DecidableEq κ] (attached : ε → Bool)
    (te : List (κ × List ε)) :
    ((sweepRegistry attached te).map (·.1)).Sublist (te.map (·.1)) := by
  induction te with
  | nil => simp [sweepRegistry]
  | cons a as ih =>
    unfold sweepRegistry at ih ⊢
    rw [List.filterMap_cons]
    dsimp only
    split
    · exact ih.trans (List.sublist_cons_self _ _)
    · rename_i b hb
      have hb1 : b.1 = a.1 := by
        by_cases hc : (a.2.filter attached).isEmpty
        · rw [if_pos hc] at hb
          cases hb
        · rw [if_neg hc] at hb
          cases hb
          rfl
      simp only [List.map_cons, hb1]
      exact ih.cons₂ a.1

theorem mem_sweepRegistry [DecidableEq κ] {attached : ε → Bool}
    {te : List (κ × List ε)} {p : κ × List ε}
    (h : p ∈ sweepRegistry attached te) :
    ∃ a ∈ te, p = (a.1, a.2.filter attached) ∧ ¬ (a.2.filter attached).isEmpty = true := by
  rcases List.mem_filterMap.mp h with ⟨a, ha, hfa⟩
  by_cases hc : (a.2.filter attached).isEmpty
  · rw [if_pos hc] at hfa
    cases hfa
  · rw [if_neg hc] at hfa
    cases hfa
    exact ⟨a, ha, rfl, hc⟩

theorem filter_not_mem_take_keys [DecidableEq κ] (l : List (κ × β)) (k : Nat)
    (hnd : (l.map (·.1)).Nodup) :
    l.filter (fun p => decide (p.1 ∉ (l.map (·.1)).take k)) = l.drop k := by
  have hsplit : l.filter (fun p => decide (p.1 ∉ (l.map (·.1)).take k)) =
      (l.take k).filter (fun p => decide (p.1 ∉ (l.map (·.1)).take k)) ++
        (l.drop k).filter (fun p => decide (p.1 ∉ (l.map (·.1)).take k)) := by
    rw [← List.filter_append, List.take_append_drop]
  have hdisj : ∀ a ∈ ((l.take k).map (·.1)), a ∉ ((l.drop k).map (·.1)) := by
    have hnd' := hnd
    conv at hnd' => rw [← List.take_append_drop k l, List.map_append]
    exact (List.nodup_append.mp hnd').2.2
  have h1 : (l.take k).filter (fun p => decide (p.1 ∉ (l.map (·.1)).take k)) = [] := by
    rw [List.filter_eq_nil_iff]
    intro p hp
    simp only [decide_eq_true_eq, not_not]
    rw [← List.map_take]
    exact List.mem_map_of_mem (·.1) hp
  have h2 : (l.drop k).filter (fun p => decide (p.1 ∉ (l.map (·.1)).take k)) =
      l.drop k := by
    rw [List.filter_eq_self]
    intro p hp
    simp only [decide_eq_true_eq]
    rw [← List.map_take]
    intro hmem
    exact hdisj p.1 hmem (List.mem_map_of_mem (·.1) hp)
  rw [hsplit, h1, h2]
  simp

theorem processPendingNodes_of_le [DecidableEq κ] (attached : ε → Bool)
    (te : List (κ × List ε)) (idd : List (κ × δ))
    (h : ¬ 500 < (sweepRegistry attached te).length) :
    processPendingNodes attached te idd =
      (sweepRegistry attached te,
       idd.filter (fun p => decide (p.1 ∉ deadKeys attached te))) := by
  unfold processPendingNodes
  dsimp only
  rw [if_neg h]

theorem processPendingNodes_of_gt [DecidableEq κ] (attached : ε → Bool)
    (te : List (κ × List ε)) (idd : List (κ × δ))
    (h : 500 < (sweepRegistry attached te).length) :
    processPendingNodes attached te idd =
      ((sweepRegistry attached te).filter (fun p => decide (p.1 ∉
          ((sweepRegistry attached te).map (·.1)).take
            ((sweepRegistry attached te).length - 500))),
       (idd.filter (fun p => decide (p.1 ∉ deadKeys attached te))).filter
         (fun p => decide (p.1 ∉
           ((sweepRegistry attached te).map (·.1)).take
             ((sweepRegistry attached te).length - 500)))) := by
  unfold processPendingNodes
  dsimp only
  rw [if_pos h]

/-- C8: after a reconciliation flush, every surviving marker list holds
only attached elements; an identifier whose marker list lost all
attached elements is gone from both the marker registry and the record
map; and when more than 500 identifiers remain tracked after the sweep,
the earliest-inserted are evicted first, leaving exactly the last 500. -/
theorem processPendingNodes_reconciles [DecidableEq κ] (attached : ε → Bool)
    (te : List (κ × List ε)) (idd : List (κ × δ))
    (hnd : (te.map (·.1)).Nodup) :
    (∀ p ∈ (processPendingNodes attached te idd).1, ∀ e ∈ p.2,
       attached e = true) ∧
    (∀ p ∈ te, (p.2.filter attached).isEmpty = true →
       p.1 ∉ ((processPendingNodes attached te idd).1.map (·.1)) ∧
       p.1 ∉ ((processPendingNodes attached te idd).2.map (·.1))) ∧
    (500 < (sweepRegistry attached te).length →
       (processPendingNodes attached te idd).1 =
         (sweepRegistry attached te).drop
           ((sweepRegistry attached te).length - 500) ∧
       (processPendingNodes attached te idd).1.length = 500) := by
  have hsweepnd : ((sweepRegistry attached te).map (·.1)).Nodup :=
    (keys_sweepRegistry_sublist attached te).nodup hnd
  have hmem_fst : ∀ p, p ∈ (processPendingNodes attached te idd).1 →
      p ∈ sweepRegistry attached te := by
    intro p hp
    by_cases h : 500 < (sweepRegistry attached te).length
    · rw [processPendingNodes_of_gt attached te idd h] at hp
      exact (List.mem_filter.mp hp).1
    · rw [processPendingNodes_of_le attached te idd h] at hp
      exact hp
  have hmem_snd : ∀ q, q ∈ (processPendingNodes attached te idd).2 →
      q ∈ idd.filter (fun p => decide (p.1 ∉ deadKeys attached te)) := by
    intro q hq
    by_cases h : 500 < (sweepRegistry attached te).length
    · rw [processPendingNodes_of_gt attached te idd h] at hq
      exact (List.mem_filter.mp hq).1
    · rw [processPendingNodes_of_le attached te idd h] at hq
      exact hq
  refine ⟨?_, ?_, ?_⟩
  · intro p hp e he
    rcases mem_sweepRegistry (hmem_fst p hp) with ⟨a, _, rfl, _⟩
    exact (List.mem_filter.mp he).2
  · intro p hp hconn
    constructor
    · intro hkey
      rcases List.mem_map.mp hkey with ⟨q, hq, hqk⟩
      rcases mem_sweepRegistry (hmem_fst q hq) with ⟨a, ha, rfl, hane⟩
      have : p = a := nodup_keys_entry_eq hnd hp ha (by simpa using hqk.symm)
      subst this
      exact hane hconn
    · intro hkey
      rcases List.mem_map.mp hkey with ⟨q, hq, hqk⟩
      have hq' := List.mem_filter.mp (hmem_snd q hq)
      have hdead : p.1 ∈ deadKeys attached te :=
        List.mem_map_of_mem (·.1)
          (List.mem_filter.mpr ⟨hp, by simpa using hconn⟩)
      have : q.1 ∉ deadKeys attached te := by simpa using hq'.2
      exact this (hqk ▸ hdead)
  · intro h
    have heq := processPendingNodes_of_gt attached te idd h
    rw [heq]
    constructor
    · exact filter_not_mem_take_keys _ _ hsweepnd
    · rw [filter_not_mem_take_keys _ _ hsweepnd]
      simp only [List.length_drop]
      omega

/-- Witness for `processPendingNodes_reconciles`: two tracked
identifiers, element 1 detached; after the flush identifier 10 (whose
only marker was detached) is gone from both maps, identifier 20
survives with its attached marker. -/
theorem processPendingNodes_reconciles_witness :
    (∀ p ∈ (processPendingNodes (fun e => decide (e ≠ 1))
        [(10, [1]), (20, [2])] [(10, 0), (20, 0)]).1, ∀ e ∈ p.2,
       (fun e => decide ((e : Nat) ≠ 1)) e = true) ∧
    ((10 : Nat), [1]) ∈ [((10 : Nat), [(1 : Nat)]), (20, [2])] ∧
    (10 : Nat) ∉ ((processPendingNodes (fun e => decide (e ≠ 1))
        [(10, [1]), (20, [2])] [((10 : Nat), (0 : Nat)), (20, 0)]).1.map (·.1)) ∧
    (10 : Nat) ∉ ((processPendingNodes (fun e => decide (e ≠ 1))
        [(10, [1]), (20, [2])] [((10 : Nat), (0 : Nat)), (20, 0)]).2.map (·.1)) :=
  ⟨(processPendingNodes_reconciles (fun e => decide (e ≠ 1))
      [(10, [1]), (20, [2])] [(10, 0), (20, 0)] (by decide)).1,
   by decide,
   ((processPendingNodes_reconciles (fun e => decide (e ≠ 1))
      [(10, [1]), (20, [2])] [(10, 0), (20, 0)] (by decide)).2.1
     (10, [1]) (by decide) (by decide)).1,
   ((processPendingNodes_reconciles (fun e => decide (e ≠ 1))
      [(10, [1]), (20, [2])] [(10, 0), (20, 0)] (by decide)).2.1
     (10, [1]) (by decide) (by decide)).2⟩
